import Mathlib

/-!
Shallow embedding of the eri configuration-templating program
(src/main.rs, src/config.rs, src/data.rs, src/namespace.rs, src/template.rs).

Conventions of the embedding:
* `serde_json::Value` becomes the inductive `Value`; `serde_json::Map`
  (a BTreeMap) is modelled as an association list with replace-on-insert
  semantics (`mapInsert`), characterised through `mapLookup`.
* libucl object handles (`ObjectRef`) become the mutual inductive `Ucl` /
  `UclList` / `UclEntries`.
* `f64` payloads are abstracted as `F64`: a finiteness flag plus an opaque
  integer tag; the only f64 operation the program performs is
  `serde_json::Number::from_f64`, which fails exactly on non-finite input.
* Filesystem and OS effects are modelled by explicit oracles (directory
  existence, errno results, copy/create success flags) and by operation
  traces; `panic!`/`process::exit` paths are distinguished from returned
  `Err` values by the three-valued `Outcome` type.
-/

namespace Eri

/-- Abstract model of an `f64` payload: the program only ever asks whether it
is finite (`serde_json::Number::from_f64` returns `None` on NaN/inf); the
`tag` field keeps distinct payloads distinct. -/
structure F64 where
  finite : Bool
  tag : Int
deriving DecidableEq, Repr

/-- `serde_json` numbers: either an i64-backed integer or an f64-backed
float.  The two constructors model the distinct internal representations
(`Number::from(i64)` versus `Number::from_f64`). -/
inductive JNumber where
  | int (i : Int)
  | float (f : F64)
deriving DecidableEq, Repr

/-- `serde_json::Number::from_f64`: succeeds exactly on finite floats. -/
def numberFromF64 (f : F64) : Option JNumber :=
  if f.finite then some (JNumber.float f) else none

/-- `serde_json::Value`.  Objects are association lists (see `mapInsert`). -/
inductive Value where
  | null
  | bool (b : Bool)
  | num (n : JNumber)
  | str (s : String)
  | arr (items : List Value)
  | obj (entries : List (String × Value))

/-- Is this value a JSON object?  (`matches!(v, Value::Object(_))`). -/
def Value.isObj : Value → Bool
  | .obj _ => true
  | _ => false

/-- First-match lookup in an association-list map. -/
def mapLookup : List (String × Value) → String → Option Value
  | [], _ => none
  | (k, v) :: rest, key => if k = key then some v else mapLookup rest key

/-- `BTreeMap::insert`: replace the binding of an existing key, otherwise
add the binding.  (The model keeps insertion order rather than key order;
all claims are characterised through `mapLookup`, which is unaffected.) -/
def mapInsert : List (String × Value) → String → Value → List (String × Value)
  | [], k, v => [(k, v)]
  | (k1, v1) :: rest, k, v =>
    if k1 = k then (k, v) :: rest else (k1, v1) :: mapInsert rest k v

/-- Fold a list of key/value pairs into a map by sequential insertion
(the `for item in src.iter() { map.insert(key, value) }` pattern). -/
def listToMap (ps : List (String × Value)) : List (String × Value) :=
  ps.foldl (fun acc p => mapInsert acc p.1 p.2) []

/-- `BTreeMap::append`: move every binding of `other` into `base`,
overriding bindings of `base` with the same key. -/
def mapAppend (base other : List (String × Value)) : List (String × Value) :=
  other.foldl (fun acc p => mapInsert acc p.1 p.2) base

mutual

/-- libucl object handles (`ObjectRef`), by UCL kind.  `userdata` carries no
payload because the program never inspects one.  Object entries carry their
keys directly (`item.key()` is total on object children). -/
inductive Ucl where
  | null
  | bool (b : Bool)
  | int (i : Int)
  | float (f : F64)
  | time (t : F64)
  | str (s : String)
  | arr (items : UclList)
  | obj (entries : UclEntries)
  | userdata

/-- Children of a UCL array node. -/
inductive UclList where
  | nil
  | cons (head : Ucl) (tail : UclList)

/-- Key/value children of a UCL object node. -/
inductive UclEntries where
  | nil
  | cons (key : String) (value : Ucl) (tail : UclEntries)

end

mutual

/-- `data::object_ref_to_value` (src/data.rs): recursive conversion of a UCL
node into a `serde_json::Value`. -/
def object_ref_to_value : Ucl → Except String Value
  | .null => .ok .null
  | .bool b => .ok (.bool b)
  | .int i => .ok (.num (.int i))
  | .float f =>
    match numberFromF64 f with
    | some n => .ok (.num n)
    | none => .error "cannot parse number"
  | .time t =>
    match numberFromF64 t with
    | some n => .ok (.num n)
    | none => .error "cannot parse number"
  | .str s => .ok (.str s)
  | .arr items =>
    match convList items with
    | .ok vs => .ok (.arr vs)
    | .error e => .error e
  | .obj entries =>
    match convEntries entries with
    | .ok ps => .ok (.obj (listToMap ps))
    | .error e => .error e
  | .userdata => .error "cannot convert userdata to json value"

/-- Conversion of UCL array children, in order; the first failure aborts. -/
def convList : UclList → Except String (List Value)
  | .nil => .ok []
  | .cons x xs =>
    match object_ref_to_value x with
    | .ok v =>
      match convList xs with
      | .ok vs => .ok (v :: vs)
      | .error e => .error e
    | .error e => .error e

/-- Conversion of UCL object children to key/value pairs, in order; the
first failure aborts.  (The map itself is built by `listToMap`.) -/
def convEntries : UclEntries → Except String (List (String × Value))
  | .nil => .ok []
  | .cons k u rest =>
    match object_ref_to_value u with
    | .ok v =>
      match convEntries rest with
      | .ok ps => .ok ((k, v) :: ps)
      | .error e => .error e
    | .error e => .error e

end

/-- The `for item ... { new_values.insert(key, object_ref_to_value(item)?) }`
pattern shared by `config::map_namespace` and `Namespace::new`. -/
def uclEntriesToMap (es : UclEntries) : Except String (List (String × Value)) :=
  match convEntries es with
  | .ok ps => .ok (listToMap ps)
  | .error e => .error e

mutual

/-- Does a UCL tree contain a node `object_ref_to_value` cannot represent:
a `userdata` node, or a float/time node whose f64 is not finite? -/
def hasBadNode : Ucl → Bool
  | .userdata => true
  | .float f => !f.finite
  | .time t => !t.finite
  | .arr items => hasBadList items
  | .obj entries => hasBadEntries entries
  | _ => false

/-- `hasBadNode` over array children. -/
def hasBadList : UclList → Bool
  | .nil => false
  | .cons x xs => hasBadNode x || hasBadList xs

/-- `hasBadNode` over object children. -/
def hasBadEntries : UclEntries → Bool
  | .nil => false
  | .cons _ u rest => hasBadNode u || hasBadEntries rest

end

/-- Is an `Except` an `Ok`? -/
def isOkB {ε α : Type} : Except ε α → Bool
  | .ok _ => true
  | .error _ => false

/-- `config::map_mode` (src/config.rs): permission parsing.  A null maps to
`None`; a non-integer is a `WrongType` error; the integer is converted to
`u32` (failing outside `[0, 2^32)`); the decimal digits are then packed as
`user*64 + group*8 + other` with **no validation of digit range**. -/
def map_mode : Ucl → Except String (Option Nat)
  | .null => .ok none
  | .int i =>
    if 0 ≤ i ∧ i < 2 ^ 32 then
      let v : Nat := i.toNat
      .ok (some (v / 100 * 64 + v % 100 / 10 * 8 + v % 10))
    else
      .error "could not convert config value to u32"
  | _ => .error "WrongType: permissions wanted UCL_INT"

mutual

/-- Conversion succeeds on a node exactly when it has no bad subnode. -/
theorem convOk_node : ∀ u : Ucl, isOkB (object_ref_to_value u) = !hasBadNode u
  | .null => rfl
  | .bool _ => rfl
  | .int _ => rfl
  | .str _ => rfl
  | .userdata => rfl
  | .float f => by
    cases hf : f.finite <;>
      simp [object_ref_to_value, numberFromF64, hf, isOkB, hasBadNode]
  | .time t => by
    cases ht : t.finite <;>
      simp [object_ref_to_value, numberFromF64, ht, isOkB, hasBadNode]
  | .arr items => by
    have ih := convOk_list items
    cases h : convList items with
    | ok vs => rw [h] at ih; simpa [object_ref_to_value, h, isOkB, hasBadNode] using ih
    | error e => rw [h] at ih; simpa [object_ref_to_value, h, isOkB, hasBadNode] using ih
  | .obj entries => by
    have ih := convOk_entries entries
    cases h : convEntries entries with
    | ok ps => rw [h] at ih; simpa [object_ref_to_value, h, isOkB, hasBadNode] using ih
    | error e => rw [h] at ih; simpa [object_ref_to_value, h, isOkB, hasBadNode] using ih

/-- Conversion succeeds on array children exactly when none is bad. -/
theorem convOk_list : ∀ xs : UclList, isOkB (convList xs) = !hasBadList xs
  | .nil => rfl
  | .cons x xs => by
    have ihx := convOk_node x
    have ihs := convOk_list xs
    cases hx : object_ref_to_value x with
    | ok v =>
      rw [hx] at ihx
      simp [isOkB] at ihx
      cases hs : convList xs with
      | ok vs =>
        rw [hs] at ihs
        simp [isOkB] at ihs
        simp [convList, hx, hs, isOkB, hasBadList, ihx, ihs]
      | error e =>
        rw [hs] at ihs
        simp [isOkB] at ihs
        simp [convList, hx, hs, isOkB, hasBadList, ihx, ihs]
    | error e =>
      rw [hx] at ihx
      simp [isOkB] at ihx
      simp [convList, hx, isOkB, hasBadList, ihx]

/-- Conversion succeeds on object children exactly when none is bad. -/
theorem convOk_entries : ∀ es : UclEntries, isOkB (convEntries es) = !hasBadEntries es
  | .nil => rfl
  | .cons k u rest => by
    have ihu := convOk_node u
    have ihr := convOk_entries rest
    cases hu : object_ref_to_value u with
    | ok v =>
      rw [hu] at ihu
      simp [isOkB] at ihu
      cases hr : convEntries rest with
      | ok ps =>
        rw [hr] at ihr
        simp [isOkB] at ihr
        simp [convEntries, hu, hr, isOkB, hasBadEntries, ihu, ihr]
      | error e =>
        rw [hr] at ihr
        simp [isOkB] at ihr
        simp [convEntries, hu, hr, isOkB, hasBadEntries, ihu, ihr]
    | error e =>
      rw [hu] at ihu
      simp [isOkB] at ihu
      simp [convEntries, hu, isOkB, hasBadEntries, ihu]

end

/-- C6: the value converter preserves kind and value for every scalar kind
(an integer node converts to an integer `Value` with the same value, never a
float; booleans, strings and null map to their same-kind `Value`s; arrays
and objects recurse depth-first over their children), and it fails exactly
on trees containing the unsupported userdata kind or a float/time node
whose numeric representation is not finite. -/
theorem object_ref_to_value_kind_exact :
    object_ref_to_value .null = .ok .null ∧
    (∀ b, object_ref_to_value (.bool b) = .ok (.bool b)) ∧
    (∀ i, object_ref_to_value (.int i) = .ok (.num (.int i))) ∧
    (∀ s, object_ref_to_value (.str s) = .ok (.str s)) ∧
    (∀ f : F64, object_ref_to_value (.float f) =
      if f.finite then .ok (.num (.float f)) else .error "cannot parse number") ∧
    (∀ t : F64, object_ref_to_value (.time t) =
      if t.finite then .ok (.num (.float t)) else .error "cannot parse number") ∧
    object_ref_to_value .userdata = .error "cannot convert userdata to json value" ∧
    (∀ items vs, convList items = .ok vs →
      object_ref_to_value (.arr items) = .ok (.arr vs)) ∧
    (∀ x xs v vs, object_ref_to_value x = .ok v → convList xs = .ok vs →
      convList (.cons x xs) = .ok (v :: vs)) ∧
    (∀ entries ps, convEntries entries = .ok ps →
      object_ref_to_value (.obj entries) = .ok (.obj (listToMap ps))) ∧
    (∀ u, isOkB (object_ref_to_value u) = !hasBadNode u) := by
  refine ⟨rfl, fun _ => rfl, fun _ => rfl, fun _ => rfl, ?_, ?_, rfl, ?_, ?_, ?_, convOk_node⟩
  · intro f
    cases hf : f.finite <;> simp [object_ref_to_value, numberFromF64, hf]
  · intro t
    cases ht : t.finite <;> simp [object_ref_to_value, numberFromF64, ht]
  · intro items vs h
    simp [object_ref_to_value, h]
  · intro x xs v vs hx hs
    simp [convList, hx, hs]
  · intro entries ps h
    simp [object_ref_to_value, h]

/-- Witness for the hypotheses of `object_ref_to_value_kind_exact`: a
concrete nested array and object. -/
theorem object_ref_to_value_kind_exact_witness :
    object_ref_to_value (.arr (.cons (.int 644) .nil)) =
      .ok (.arr [.num (.int 644)]) ∧
    object_ref_to_value (.obj (.cons "mode" (.int 644) .nil)) =
      .ok (.obj [("mode", .num (.int 644))]) := by
  constructor
  · exact object_ref_to_value_kind_exact.2.2.2.2.2.2.2.1
      (.cons (.int 644) .nil) [.num (.int 644)] rfl
  · exact object_ref_to_value_kind_exact.2.2.2.2.2.2.2.2.2.1
      (.cons "mode" (.int 644) .nil) [("mode", .num (.int 644))] rfl

/-- C2 counterexample: `map_mode` performs no digit validation.  The claim
says input 890 is rejected; the code accepts it and returns the packed mode
8*64 + 9*8 + 0 = 584. -/
theorem map_mode_accepts_890 :
    map_mode (.int 890) = .ok (some 584) := by
  simp only [map_mode]
  rw [if_pos (by norm_num)]
  have h : Int.toNat 890 / 100 * 64 + Int.toNat 890 % 100 / 10 * 8 + Int.toNat 890 % 10 = 584 := by
    decide
  rw [h]

/-- C2 (amended): mode parsing maps null to no mode, rejects non-integers
with a wrong-type error and integers outside u32 range with a conversion
error; an in-range integer is split into decimal hundreds/tens/units and
packed as owner*64 + group*8 + other with no validation that a digit is at
most 7 (so 750 packs to 488 = 0o750, and 890 packs to 584 instead of being
rejected). -/
theorem map_mode_packs_decimal_digits :
    map_mode Ucl.null = .ok none ∧
    (∀ a b c : Nat, a ≤ 9 → b ≤ 9 → c ≤ 9 →
      map_mode (.int ((100 * a + 10 * b + c : Nat) : Int)) =
        .ok (some (a * 64 + b * 8 + c))) ∧
    (∀ i : Int, 0 ≤ i → i < 2 ^ 32 →
      map_mode (.int i) =
        .ok (some (i.toNat / 100 * 64 + i.toNat % 100 / 10 * 8 + i.toNat % 10))) ∧
    (∀ i : Int, ¬(0 ≤ i ∧ i < 2 ^ 32) →
      map_mode (.int i) = .error "could not convert config value to u32") ∧
    (∀ u : Ucl, u ≠ .null → (∀ i, u ≠ .int i) →
      map_mode u = .error "WrongType: permissions wanted UCL_INT") := by
  have hrange : ∀ i : Int, 0 ≤ i → i < 2 ^ 32 →
      map_mode (.int i) =
        .ok (some (i.toNat / 100 * 64 + i.toNat % 100 / 10 * 8 + i.toNat % 10)) := by
    intro i h0 h32
    simp only [map_mode]
    rw [if_pos ⟨h0, h32⟩]
  refine ⟨rfl, ?_, hrange, ?_, ?_⟩
  · intro a b c ha hb hc
    have hlt : ((100 * a + 10 * b + c : Nat) : Int) < 2 ^ 32 := by
      have : (100 * a + 10 * b + c : Nat) < 2 ^ 32 := by omega
      exact_mod_cast this
    rw [hrange ((100 * a + 10 * b + c : Nat) : Int) (by positivity) hlt]
    have htn : ((100 * a + 10 * b + c : Nat) : Int).toNat = 100 * a + 10 * b + c :=
      Int.toNat_ofNat _
    rw [htn]
    have h1 : (100 * a + 10 * b + c) / 100 = a := by omega
    have h2 : (100 * a + 10 * b + c) % 100 / 10 = b := by omega
    have h3 : (100 * a + 10 * b + c) % 10 = c := by omega
    rw [h1, h2, h3]
  · intro i h
    simp only [map_mode]
    rw [if_neg h]
  · intro u hnull hint
    cases u with
    | null => exact absurd rfl hnull
    | int i => exact absurd rfl (hint i)
    | bool b => rfl
    | float f => rfl
    | time t => rfl
    | str s => rfl
    | arr items => rfl
    | obj entries => rfl
    | userdata => rfl

/-- Witness for `map_mode_packs_decimal_digits`: 750 packs to 488 = 0o750,
-1 is out of u32 range, and a string is a wrong-type error. -/
theorem map_mode_packs_decimal_digits_witness :
    map_mode (.int 750) = .ok (some 488) ∧
    map_mode (.int (-1)) = .error "could not convert config value to u32" ∧
    map_mode (.str "rw") = .error "WrongType: permissions wanted UCL_INT" := by
  refine ⟨?_, ?_, ?_⟩
  · have h := map_mode_packs_decimal_digits.2.1 7 5 0 (by norm_num) (by norm_num)
      (by norm_num)
    norm_num at h
    exact h
  · exact map_mode_packs_decimal_digits.2.2.2.1 (-1) (by norm_num)
  · exact map_mode_packs_decimal_digits.2.2.2.2 (.str "rw") (by simp) (by simp)

/-- Keys of an association-list map, in order. -/
def mapKeys (m : List (String × Value)) : List String := m.map Prod.fst

theorem mapLookup_mapInsert (m : List (String × Value)) (k : String) (v : Value) :
    ∀ key, mapLookup (mapInsert m k v) key = if k = key then some v else mapLookup m key := by
  induction m with
  | nil =>
    intro key
    simp [mapInsert, mapLookup]
  | cons p rest ih =>
    intro key
    obtain ⟨k1, v1⟩ := p
    by_cases h1 : k1 = k
    · subst h1
      by_cases h2 : k1 = key <;> simp [mapInsert, mapLookup, h2]
    · by_cases h2 : k1 = key
      · subst h2
        have hk : ¬ k = k1 := fun hh => h1 hh.symm
        simp [mapInsert, mapLookup, h1, hk]
      · simp [mapInsert, mapLookup, h1, h2, ih key]

theorem mapLookup_eq_none_of_not_mem_keys (m : List (String × Value)) (key : String)
    (h : key ∉ mapKeys m) : mapLookup m key = none := by
  induction m with
  | nil => rfl
  | cons p rest ih =>
    obtain ⟨k1, v1⟩ := p
    simp [mapKeys] at h
    simp only [mapLookup]
    rw [if_neg (fun hh : k1 = key => h.1 hh.symm)]
    exact ih (by simp [mapKeys, h.2])

theorem mapKeys_mapInsert (m : List (String × Value)) (k : String) (v : Value) :
    mapKeys (mapInsert m k v) = if k ∈ mapKeys m then mapKeys m else mapKeys m ++ [k] := by
  induction m with
  | nil => simp [mapInsert, mapKeys]
  | cons p rest ih =>
    obtain ⟨k1, v1⟩ := p
    by_cases h1 : k1 = k
    · subst h1
      simp [mapInsert, mapKeys]
    · have h1s : ¬ k = k1 := fun hh => h1 hh.symm
      simp only [mapInsert, mapKeys, List.map_cons] at ih ⊢
      rw [if_neg h1, List.map_cons, ih]
      by_cases h2 : k ∈ List.map Prod.fst rest
      · simp [h2, List.mem_cons, h1s]
      · simp [h2, List.mem_cons, h1s]

theorem nodup_keys_mapInsert (m : List (String × Value)) (k : String) (v : Value)
    (h : (mapKeys m).Nodup) : (mapKeys (mapInsert m k v)).Nodup := by
  rw [mapKeys_mapInsert]
  by_cases hk : k ∈ mapKeys m
  · simpa [hk]
  · simpa [hk] using List.Nodup.append h (List.nodup_singleton k) (by simpa using hk)

theorem nodup_keys_foldl_mapInsert (ps : List (String × Value)) :
    ∀ acc : List (String × Value), (mapKeys acc).Nodup →
      (mapKeys (ps.foldl (fun m p => mapInsert m p.1 p.2) acc)).Nodup := by
  induction ps with
  | nil => intro acc h; simpa using h
  | cons p rest ih =>
    intro acc h
    simpa using ih (mapInsert acc p.1 p.2) (nodup_keys_mapInsert acc p.1 p.2 h)

theorem nodup_keys_listToMap (ps : List (String × Value)) :
    (mapKeys (listToMap ps)).Nodup :=
  nodup_keys_foldl_mapInsert ps [] (by simp [mapKeys])

theorem mapLookup_mapAppend (other : List (String × Value))
    (hnd : (mapKeys other).Nodup) :
    ∀ (base : List (String × Value)) (key : String),
      mapLookup (mapAppend base other) key =
        match mapLookup other key with
        | some v => some v
        | none => mapLookup base key := by
  induction other with
  | nil => intro base key; simp [mapAppend, mapLookup]
  | cons p rest ih =>
    intro base key
    obtain ⟨k0, v0⟩ := p
    simp only [mapKeys, List.map_cons, List.nodup_cons] at hnd
    have ih2 := ih hnd.2 (mapInsert base k0 v0) key
    have hstep : mapAppend base ((k0, v0) :: rest) = mapAppend (mapInsert base k0 v0) rest := by
      simp [mapAppend]
    rw [hstep, ih2]
    by_cases h : k0 = key
    · subst h
      have hnone : mapLookup rest k0 = none :=
        mapLookup_eq_none_of_not_mem_keys rest k0 (by simpa [mapKeys] using hnd.1)
      simp [hnone, mapLookup, mapLookup_mapInsert]
    · simp only [mapLookup]
      rw [if_neg h]
      cases hr : mapLookup rest key with
      | some v => simp
      | none => simp [mapLookup_mapInsert, h]

/-- Three-valued outcome of running a piece of the program: a returned
`Ok`, a returned `Err` (recoverable, attributable to the operation), or a
`panic!`/`process::exit` (fatal to the whole run). -/
inductive Outcome (α : Type) where
  | ok (val : α)
  | err (msg : String)
  | panicked (msg : String)
deriving Repr

/-- State of the optional namespace-local override file
`<namespace dir>/eri.conf` as `Namespace::new` observes it: missing,
present but not a regular file, unreadable/unparsable (the `?` paths of
`read_to_string`, `add_chunk_full` and `get_object`), or parsed into
top-level key/value entries. -/
inductive OverrideSrc where
  | absent
  | notAFile
  | unreadable (msg : String)
  | parsed (entries : UclEntries)

/-- The data-merging part of `Namespace::new` (src/namespace.rs): convert
the override entries into `new_values`; if non-empty, take the existing
namespace-scoped object (panicking if the entry exists but is not an
object, an empty object if absent), move every override binding into it
(`BTreeMap::append`, override wins), and store the result back under the
namespace's key. -/
def namespaceNewData (name : String) (ov : OverrideSrc)
    (data : List (String × Value)) : Outcome (List (String × Value)) :=
  match ov with
  | .absent => .ok data
  | .notAFile => .ok data
  | .unreadable e => .err e
  | .parsed entries =>
    match uclEntriesToMap entries with
    | .error e => .err e
    | .ok newValues =>
      if newValues.isEmpty then .ok data
      else
        match mapLookup data name with
        | some (Value.obj obj) =>
          .ok (mapInsert data name (Value.obj (mapAppend obj newValues)))
        | some _ => .panicked "something messed up the data"
        | none => .ok (mapInsert data name (Value.obj (mapAppend [] newValues)))

theorem nodup_keys_of_uclEntriesToMap (es : UclEntries) (nv : List (String × Value))
    (h : uclEntriesToMap es = .ok nv) : (mapKeys nv).Nodup := by
  unfold uclEntriesToMap at h
  cases hc : convEntries es with
  | ok ps =>
    rw [hc] at h
    simp only [Except.ok.injEq] at h
    subst h
    exact nodup_keys_listToMap ps
  | error e => rw [hc] at h; cases h

/-- C3: when the override file of a namespace converts to a non-empty
object, `Namespace::new` performs a shallow union: the merged object binds
every key of the override (an override value wholly replaces an existing
same-named value, lookups never descend into nested objects), the result is
stored back as the namespace's entry in the shared data mapping, and all
other entries of the mapping are untouched; an absent override file, one
that is not a regular file, and one converting to an empty object each
leave the data mapping unchanged without an error. -/
theorem namespace_new_shallow_merge :
    (∀ name data, namespaceNewData name .absent data = .ok data) ∧
    (∀ name data, namespaceNewData name .notAFile data = .ok data) ∧
    (∀ name entries data, uclEntriesToMap entries = .ok [] →
      namespaceNewData name (.parsed entries) data = .ok data) ∧
    (∀ name entries data newValues obj,
      uclEntriesToMap entries = .ok newValues → newValues ≠ [] →
      mapLookup data name = some (.obj obj) →
      namespaceNewData name (.parsed entries) data =
        .ok (mapInsert data name (.obj (mapAppend obj newValues))) ∧
      (∀ key, mapLookup (mapAppend obj newValues) key =
        match mapLookup newValues key with
        | some v => some v
        | none => mapLookup obj key) ∧
      (∀ key, key ≠ name →
        mapLookup (mapInsert data name (.obj (mapAppend obj newValues))) key =
          mapLookup data key) ∧
      mapLookup (mapInsert data name (.obj (mapAppend obj newValues))) name =
        some (.obj (mapAppend obj newValues))) ∧
    (∀ name entries data newValues,
      uclEntriesToMap entries = .ok newValues → newValues ≠ [] →
      mapLookup data name = none →
      namespaceNewData name (.parsed entries) data =
        .ok (mapInsert data name (.obj (mapAppend [] newValues))) ∧
      (∀ key, mapLookup (mapAppend [] newValues) key = mapLookup newValues key)) := by
  refine ⟨fun _ _ => rfl, fun _ _ => rfl, ?_, ?_, ?_⟩
  · intro name entries data h
    simp [namespaceNewData, h]
  · intro name entries data newValues obj h1 h2 h3
    have hnd := nodup_keys_of_uclEntriesToMap entries newValues h1
    have hempty : newValues.isEmpty = false := by
      cases newValues with
      | nil => exact absurd rfl h2
      | cons a as => rfl
    refine ⟨?_, ?_, ?_, ?_⟩
    · simp [namespaceNewData, h1, hempty, h3]
    · intro key
      exact mapLookup_mapAppend newValues hnd obj key
    · intro key hkey
      rw [mapLookup_mapInsert]
      exact if_neg (fun hh => hkey hh.symm)
    · rw [mapLookup_mapInsert]
      exact if_pos rfl
  · intro name entries data newValues h1 h2 h3
    have hnd := nodup_keys_of_uclEntriesToMap entries newValues h1
    have hempty : newValues.isEmpty = false := by
      cases newValues with
      | nil => exact absurd rfl h2
      | cons a as => rfl
    refine ⟨?_, ?_⟩
    · simp [namespaceNewData, h1, hempty, h3]
    · intro key
      rw [mapLookup_mapAppend newValues hnd [] key]
      cases mapLookup newValues key <;> rfl

/-- Witness for `namespace_new_shallow_merge`, on the spec scenario of base
data `{ns: {a: {x:1, y:2}}}` and override `{a: {z:3}}`: the merged entry
for key `a` is exactly the override object `{z:3}`, not a deep merge. -/
theorem namespace_new_shallow_merge_witness :
    namespaceNewData "ns"
        (.parsed (.cons "a" (.obj (.cons "z" (.int 3) .nil)) .nil))
        [("ns", .obj [("a", .obj [("x", .num (.int 1)), ("y", .num (.int 2))])])] =
      .ok [("ns", .obj [("a", .obj [("z", .num (.int 3))])])] ∧
    mapLookup
        (mapAppend [("a", .obj [("x", .num (.int 1)), ("y", .num (.int 2))])]
          [("a", .obj [("z", .num (.int 3))])]) "a" =
      some (.obj [("z", .num (.int 3))]) := by
  have h := namespace_new_shallow_merge.2.2.2.1 "ns"
    (.cons "a" (.obj (.cons "z" (.int 3) .nil)) .nil)
    [("ns", .obj [("a", .obj [("x", .num (.int 1)), ("y", .num (.int 2))])])]
    [("a", .obj [("z", .num (.int 3))])]
    [("a", .obj [("x", .num (.int 1)), ("y", .num (.int 2))])]
    rfl (by simp) rfl
  exact ⟨h.1, h.2.1 "a"⟩

/-- C4 counterexample: an override-merge type mismatch (the value stored
under the namespace's key is a string, not an object, while the override is
a non-empty object) makes `Namespace::new` hit
`panic!("something messed up the data")` — a fatal abort of the whole
process — not a recoverable error reported for that namespace. -/
theorem override_type_mismatch_panic_concrete :
    namespaceNewData "ns" (.parsed (.cons "a" (.int 1) .nil)) [("ns", .str "x")] =
      .panicked "something messed up the data" := rfl

/-- C4 (amended): an override-merge type mismatch is a `panic!` that aborts
the whole run; it is not returned as a recoverable, namespace-scoped error. -/
theorem override_type_mismatch_panics :
    ∀ name entries data newValues v,
      uclEntriesToMap entries = .ok newValues → newValues ≠ [] →
      mapLookup data name = some v → v.isObj = false →
      namespaceNewData name (.parsed entries) data =
        .panicked "something messed up the data" := by
  intro name entries data newValues v h1 h2 h3 h4
  have hempty : newValues.isEmpty = false := by
    cases newValues with
    | nil => exact absurd rfl h2
    | cons a as => rfl
  cases v <;> simp [Value.isObj] at h4 <;> simp [namespaceNewData, h1, hempty, h3]

/-- Witness for `override_type_mismatch_panics` at the concrete mismatch
input. -/
theorem override_type_mismatch_panics_witness :
    namespaceNewData "ns2" (.parsed (.cons "b" (.bool true) .nil))
        [("ns2", .num (.int 7))] =
      .panicked "something messed up the data" :=
  override_type_mismatch_panics "ns2" (.cons "b" (.bool true) .nil)
    [("ns2", .num (.int 7))] [("b", .bool true)] (.num (.int 7))
    rfl (by simp) rfl rfl

/-- Linux errno values used by template.rs (`libc::EPERM` etc.). -/
def EPERM : Int := 1

/-- `libc::ENOENT`. -/
def ENOENT : Int := 2

/-- `libc::EROFS`. -/
def EROFS : Int := 30

/-- Did this outcome return a recoverable error to the caller? -/
def Outcome.isErr {α : Type} : Outcome α → Bool
  | .err _ => true
  | _ => false

/-- Did this outcome abort the whole run? -/
def Outcome.isPanic {α : Type} : Outcome α → Bool
  | .panicked _ => true
  | _ => false

/-- `template::chown` (src/template.rs): `res` is `none` when the
`libc::chown` call succeeds and `some errno` when it fails.  EPERM and
EROFS failures are returned as errors; any other errno panics. -/
def chown (res : Option Int) : Outcome Unit :=
  match res with
  | none => .ok ()
  | some e =>
    if e = EPERM then
      .err "chown: this process lacks permission to make the requested change"
    else if e = EROFS then
      .err "chown: the file is on a read-only file system"
    else
      .panicked "chown: unexpected errno"

/-- `template::chmod` (src/template.rs): ENOENT, EPERM and EROFS failures
are returned as errors; any other errno panics. -/
def chmod (res : Option Int) : Outcome Unit :=
  match res with
  | none => .ok ()
  | some e =>
    if e = ENOENT then
      .err "chmod: the named file does not exist"
    else if e = EPERM then
      .err "chmod: this process does not have permission to change the access permissions of this file"
    else if e = EROFS then
      .err "chmod: the file resides on a read-only file system"
    else
      .panicked "chmod: unexpected errno"

/-- C5 counterexample: a `chmod` failure with errno ENOENT is returned as a
recoverable error, although the claim says every errno other than EPERM and
EROFS is fatal to the whole run. -/
theorem chmod_enoent_is_recoverable :
    chmod (some 2) = .err "chmod: the named file does not exist" := rfl

/-- C5 (amended): `chown` returns exactly the EPERM and EROFS failures as
recoverable errors and panics on every other errno; `chmod` returns exactly
the ENOENT, EPERM and EROFS failures as recoverable errors and panics on
every other errno; a succeeding call returns `Ok`. -/
theorem chown_chmod_errno_taxonomy :
    chown none = .ok () ∧
    chmod none = .ok () ∧
    (∀ e : Int, (chown (some e)).isErr = (decide (e = EPERM) || decide (e = EROFS))) ∧
    (∀ e : Int, (chown (some e)).isPanic =
      !(decide (e = EPERM) || decide (e = EROFS))) ∧
    (∀ e : Int, (chmod (some e)).isErr =
      (decide (e = ENOENT) || decide (e = EPERM) || decide (e = EROFS))) ∧
    (∀ e : Int, (chmod (some e)).isPanic =
      !(decide (e = ENOENT) || decide (e = EPERM) || decide (e = EROFS))) := by
  refine ⟨rfl, rfl, ?_, ?_, ?_, ?_⟩
  · intro e
    by_cases h1 : e = (1 : Int)
    · simp [chown, h1, Outcome.isErr, EPERM, EROFS]
    · by_cases h2 : e = (30 : Int) <;> simp [chown, h1, h2, Outcome.isErr, EPERM, EROFS]
  · intro e
    by_cases h1 : e = (1 : Int)
    · simp [chown, h1, Outcome.isPanic, EPERM, EROFS]
    · by_cases h2 : e = (30 : Int) <;> simp [chown, h1, h2, Outcome.isPanic, EPERM, EROFS]
  · intro e
    by_cases h3 : e = (2 : Int)
    · simp [chmod, h3, Outcome.isErr, EPERM, EROFS, ENOENT]
    · by_cases h1 : e = (1 : Int)
      · simp [chmod, h3, h1, Outcome.isErr, EPERM, EROFS, ENOENT]
      · by_cases h2 : e = (30 : Int) <;> simp [chmod, h3, h1, h2, Outcome.isErr, EPERM, EROFS, ENOENT]
  · intro e
    by_cases h3 : e = (2 : Int)
    · simp [chmod, h3, Outcome.isPanic, EPERM, EROFS, ENOENT]
    · by_cases h1 : e = (1 : Int)
      · simp [chmod, h3, h1, Outcome.isPanic, EPERM, EROFS, ENOENT]
      · by_cases h2 : e = (30 : Int) <;> simp [chmod, h3, h1, h2, Outcome.isPanic, EPERM, EROFS, ENOENT]

/-- Pipeline-level model of one configured namespace for the driver claims:
`dirExists` states whether `<cwd>/<name>` is an existing directory (the
check `Namespace::new` performs), and `renderOk` whether
`Namespace::render` would succeed for it. -/
structure NsSpec where
  name : String
  dirExists : Bool
  renderOk : Bool

/-- The missing-directory check of `Namespace::new` (src/namespace.rs):
`anyhow!("namespace {} does not have a directory", name)`.  (The override
merging performed afterwards is modelled separately by
`namespaceNewData`.) -/
def resolveNamespace (n : NsSpec) : Except String String :=
  if n.dirExists then .ok n.name
  else .error ("namespace " ++ n.name ++ " does not have a directory")

/-- `EriConfig::namespaces` (src/config.rs): builds every namespace in
order, propagating the first failure with `?`. -/
def namespaces : List NsSpec → Except String (List NsSpec)
  | [] => .ok []
  | n :: rest =>
    match resolveNamespace n with
    | .ok _ =>
      match namespaces rest with
      | .ok ns => .ok (n :: ns)
      | .error e => .error e
    | .error e => .error e

/-- The `render` subcommand of `main` (src/main.rs): if loading the
namespaces fails, the error is logged and the process exits; otherwise the
render loop visits every namespace, logging per-namespace render failures
and continuing.  The result records, per visited namespace, whether its
render succeeded. -/
def runRender (cfg : List NsSpec) : Except String (List (String × Bool)) :=
  match namespaces cfg with
  | .error e => .error e
  | .ok ns => .ok (ns.map fun n => (n.name, n.renderOk))

theorem namespaces_error_of_missing :
    ∀ cfg : List NsSpec, (∃ n ∈ cfg, n.dirExists = false) →
      ∃ e, namespaces cfg = .error e := by
  intro cfg
  induction cfg with
  | nil => rintro ⟨n, hn, _⟩; cases hn
  | cons n rest ih =>
    rintro ⟨m, hm, hdir⟩
    rcases List.mem_cons.mp hm with h | h
    · subst h
      exact ⟨"namespace " ++ m.name ++ " does not have a directory",
        by simp [namespaces, resolveNamespace, hdir]⟩
    · cases hd : n.dirExists
      · exact ⟨"namespace " ++ n.name ++ " does not have a directory",
          by simp [namespaces, resolveNamespace, hd]⟩
      · obtain ⟨e, he⟩ := ih ⟨m, h, hdir⟩
        exact ⟨e, by simp [namespaces, resolveNamespace, hd, he]⟩

theorem namespaces_ok_of_all_dirs :
    ∀ cfg : List NsSpec, (∀ n ∈ cfg, n.dirExists = true) →
      namespaces cfg = .ok cfg := by
  intro cfg
  induction cfg with
  | nil => intro _; rfl
  | cons n rest ih =>
    intro h
    have hd : n.dirExists = true := h n (List.mem_cons_self n rest)
    have hr := ih fun m hm => h m (List.mem_cons_of_mem n hm)
    simp [namespaces, resolveNamespace, hd, hr]

/-- C1 counterexample: with namespace `A` missing its directory and
namespace `B` valid, the whole `render` run aborts with `A`'s resolution
error; `B` is never rendered. -/
theorem render_aborts_on_resolution_failure :
    runRender [⟨"A", false, true⟩, ⟨"B", true, true⟩] =
      .error "namespace A does not have a directory" := rfl

/-- C1 (amended): a namespace whose directory is missing makes namespace
loading fail, which aborts the whole run before any rendering; failure
isolation applies only to the render phase, where every successfully
resolved namespace is visited by the render loop even when the render of
some namespaces fails. -/
theorem render_failure_isolation :
    (∀ cfg : List NsSpec, (∃ n ∈ cfg, n.dirExists = false) →
      ∃ e, runRender cfg = .error e) ∧
    (∀ cfg : List NsSpec, (∀ n ∈ cfg, n.dirExists = true) →
      runRender cfg = .ok (cfg.map fun n => (n.name, n.renderOk))) := by
  constructor
  · intro cfg h
    obtain ⟨e, he⟩ := namespaces_error_of_missing cfg h
    exact ⟨e, by simp [runRender, he]⟩
  · intro cfg h
    simp [runRender, namespaces_ok_of_all_dirs cfg h]

/-- Witness for `render_failure_isolation`: a failing resolution aborts,
while a failing render does not prevent the sibling namespace from being
visited. -/
theorem render_failure_isolation_witness :
    (∃ e, runRender [⟨"A", false, true⟩, ⟨"B", true, true⟩] = .error e) ∧
    runRender [⟨"A", true, false⟩, ⟨"B", true, true⟩] =
      .ok [("A", false), ("B", true)] := by
  constructor
  · exact render_failure_isolation.1 [⟨"A", false, true⟩, ⟨"B", true, true⟩]
      ⟨⟨"A", false, true⟩, by simp, rfl⟩
  · exact render_failure_isolation.2 [⟨"A", true, false⟩, ⟨"B", true, true⟩]
      (by intro n hn; simp at hn; rcases hn with h | h <;> simp [h])

/-- `umask::Mode::has`: all bits of `flag` are present in `m`. -/
def modeHas (m flag : Nat) : Bool := m &&& flag == flag

/-- `umask::Mode::with`: bitwise or. -/
def modeWith (m flag : Nat) : Nat := m ||| flag

/-- The directory-mode computation inside `Template::render`
(src/template.rs): the resolved mode with `USER_EXEC` (0o100),
`GROUP_EXEC` (0o10) and `OTHERS_EXEC` (0o1) each forced on when absent. -/
def dirModeOf (mode : Nat) : Nat :=
  let m1 := if !(modeHas mode 0o100) then modeWith mode 0o100 else mode
  let m2 := if !(modeHas m1 0o10) then modeWith m1 0o10 else m1
  if !(modeHas m2 0o1) then modeWith m2 0o1 else m2

theorem lor_of_land_eq (m f : Nat) (h : m &&& f = f) : m ||| f = m := by
  apply Nat.eq_of_testBit_eq
  intro i
  rw [Nat.testBit_lor]
  by_cases hf : f.testBit i
  · have hm : m.testBit i = true := by
      have := congrArg (fun x => x.testBit i) h
      simp only [Nat.testBit_land] at this
      rw [hf] at this
      simpa using this
    simp [hm]
  · simp [hf]

theorem modeWith_step (m f : Nat) :
    (if !(modeHas m f) then modeWith m f else m) = m ||| f := by
  unfold modeHas modeWith
  by_cases h : m &&& f = f
  · simp [beq_iff_eq, h, lor_of_land_eq m f h]
  · simp [beq_iff_eq, h]

theorem dirModeOf_eq_lor (m : Nat) : dirModeOf m = m ||| 0o111 := by
  unfold dirModeOf
  rw [modeWith_step, modeWith_step, modeWith_step, Nat.lor_assoc, Nat.lor_assoc,
    (by decide : (0o100 : Nat) ||| (0o10 ||| 0o1) = 0o111)]

theorem land_lor_superset (m a b : Nat) (h : b &&& a = b) : (m ||| a) &&& b = b := by
  apply Nat.eq_of_testBit_eq
  intro i
  rw [Nat.testBit_land, Nat.testBit_lor]
  by_cases hb : b.testBit i
  · have ha : a.testBit i = true := by
      have h2 := congrArg (fun x => x.testBit i) h
      simp only [Nat.testBit_land] at h2
      rw [hb] at h2
      simpa using h2
    simp [hb, ha]
  · simp [hb]

/-- The filesystem state `Template::render` observes, plus success oracles:
`renderFails` models a handlebars render error, `dirExists`/`dirIsDir` the
state of the export directory, `mode` the resolved permission mode and
`fileName` the template's own file name. -/
structure RenderEnv where
  renderFails : Bool
  dirExists : Bool
  dirIsDir : Bool
  mode : Nat
  fileName : String

/-- A filesystem operation attempted by `Template::render`, in order. -/
inductive FsOp where
  | createDir
  | chownDir
  | chmodDir (m : Nat)
  | createFile (name : String)
  | chownFile (name : String)
  | chmodFile (name : String) (m : Nat)
  | writeFile (name : String)
deriving DecidableEq, Repr

/-- `Template::render` (src/template.rs) as a trace of the filesystem
operations it attempts: when the export directory is missing it is created,
chowned, and chmodded with the exec-forced directory mode; the rendered
file is then created, chowned, chmodded with the unmodified resolved mode,
and written.  An existing non-directory export path is an error. -/
def render (env : RenderEnv) : Except String (List FsOp) :=
  if env.renderFails then .error "handlebars render failed"
  else
    let fileOps : List FsOp :=
      [.createFile env.fileName, .chownFile env.fileName,
       .chmodFile env.fileName env.mode, .writeFile env.fileName]
    if !env.dirExists then
      .ok ([.createDir, .chownDir, .chmodDir (dirModeOf env.mode)] ++ fileOps)
    else if !env.dirIsDir then .error "export dir already exists"
    else .ok fileOps

/-- C8: when the destination directory does not yet exist, `render` chmods
the newly created directory with the resolved mode with all three execute
bits forced on (`mode ||| 0o111`, leaving every other bit as configured),
while the rendered output file is chmodded with the resolved mode
unmodified. -/
theorem render_new_dir_exec_bits :
    (∀ m, dirModeOf m = m ||| 0o111) ∧
    (∀ m, modeHas (dirModeOf m) 0o100 = true ∧ modeHas (dirModeOf m) 0o10 = true ∧
      modeHas (dirModeOf m) 0o1 = true) ∧
    (∀ env : RenderEnv, env.renderFails = false → env.dirExists = false →
      render env =
        .ok [.createDir, .chownDir, .chmodDir (dirModeOf env.mode),
          .createFile env.fileName, .chownFile env.fileName,
          .chmodFile env.fileName env.mode, .writeFile env.fileName]) := by
  refine ⟨dirModeOf_eq_lor, ?_, ?_⟩
  · intro m
    rw [dirModeOf_eq_lor]
    refine ⟨?_, ?_, ?_⟩
    · simp [modeHas, land_lor_superset m 0o111 0o100 (by decide)]
    · simp [modeHas, land_lor_superset m 0o111 0o10 (by decide)]
    · simp [modeHas, land_lor_superset m 0o111 0o1 (by decide)]
  · intro env h1 h2
    simp [render, h1, h2]

/-- Witness for `render_new_dir_exec_bits`: configured mode 0o600 gives a
directory mode of 0o711 while the file keeps 0o600. -/
theorem render_new_dir_exec_bits_witness :
    render ⟨false, false, false, 0o600, "out"⟩ =
      .ok [.createDir, .chownDir, .chmodDir 0o711, .createFile "out",
        .chownFile "out", .chmodFile "out" 0o600, .writeFile "out"] := by
  have h := render_new_dir_exec_bits.2.2 ⟨false, false, false, 0o600, "out"⟩ rfl rfl
  have hd : dirModeOf 0o600 = 0o711 := by
    rw [render_new_dir_exec_bits.1 0o600]
    decide
  rw [hd] at h
  exact h

/-- The namespace-directory files `Namespace::gen_data_file` touches:
the data file `<dir>/eri.conf` and its timestamped backup, each modelled by
their content (the list of parameter lines). -/
structure GenFs where
  dataFile : Option (List String)
  backup : Option (List String)
deriving DecidableEq, Repr

/-- `Namespace::gen_data_file` (src/namespace.rs), after parameter
harvesting: an empty harvested set writes nothing; an existing data file is
copied to a backup (`copyOk` models `std::fs::copy` succeeding) before
`File::create` (`createOk`) truncates and rewrites it; a failed backup
aborts with an error before the data file is touched. -/
def gen_data_file (params : List String) (copyOk createOk : Bool) (fs : GenFs) :
    Except String Unit × GenFs :=
  if params.isEmpty then (.ok (), fs)
  else
    match fs.dataFile with
    | some old =>
      if copyOk then
        let fs1 : GenFs := { fs with backup := some old }
        if createOk then (.ok (), { fs1 with dataFile := some params })
        else (.error "could not create data file", fs1)
      else (.error "Failed to make a backup, not proceeding", fs)
    | none =>
      if createOk then (.ok (), { fs with dataFile := some params })
      else (.error "could not create data file", fs)

/-- C9: an empty harvested parameter set writes no file at all; when the
destination data file already exists it is copied to a backup before the
new file is created; and a backup failure aborts generation for the
namespace with an error, leaving the original file (and everything else)
unchanged. -/
theorem gen_data_file_backup_discipline :
    (∀ copyOk createOk fs, gen_data_file [] copyOk createOk fs = (.ok (), fs)) ∧
    (∀ p ps fs old, fs.dataFile = some old →
      gen_data_file (p :: ps) true true fs =
        (.ok (), { fs with dataFile := some (p :: ps), backup := some old })) ∧
    (∀ p ps createOk fs old, fs.dataFile = some old →
      gen_data_file (p :: ps) false createOk fs =
        (.error "Failed to make a backup, not proceeding", fs)) := by
  refine ⟨fun _ _ _ => rfl, ?_, ?_⟩
  · intro p ps fs old h
    simp [gen_data_file, h]
  · intro p ps createOk fs old h
    simp [gen_data_file, h]

/-- Witness for `gen_data_file_backup_discipline` on a concrete file
state. -/
theorem gen_data_file_backup_discipline_witness :
    gen_data_file [] true true ⟨some ["old ="], none⟩ =
      (.ok (), ⟨some ["old ="], none⟩) ∧
    gen_data_file ["count =", "name ="] true true ⟨some ["old ="], none⟩ =
      (.ok (), ⟨some ["count =", "name ="], some ["old ="]⟩) ∧
    gen_data_file ["count =", "name ="] false true ⟨some ["old ="], none⟩ =
      (.error "Failed to make a backup, not proceeding", ⟨some ["old ="], none⟩) :=
  ⟨gen_data_file_backup_discipline.1 true true ⟨some ["old ="], none⟩,
   gen_data_file_backup_discipline.2.1 "count =" ["name ="] ⟨some ["old ="], none⟩
     ["old ="] rfl,
   gen_data_file_backup_discipline.2.2 "count =" ["name ="] true
     ⟨some ["old ="], none⟩ ["old ="] rfl⟩

/-- One entry of the namespace directory as `Namespace::templates` and
`Template::new` observe it: `fileName` is `none` when the OS file name does
not decode to UTF-8, `isDir` is the `path.is_dir()` check, and `metaOk`
states whether the per-template metadata queries (`get_user`, `get_group`,
`get_permissions`) would succeed, consulted only when the export config has
an unset field. -/
structure DirEntry where
  fileName : Option String
  isDir : Bool
  metaOk : Bool

/-- `Namespace::templates` (src/namespace.rs) plus the `Template::new`
checks (src/template.rs): entries named `eri.conf` are skipped; an
undecodable file name is a returned error; `Template::new` panics on a
directory path; with an export-config field unset, failing metadata queries
are a returned error; every surviving entry becomes the qualified template
name `<namespace>/<file name>`.  `cfgFull` states that the export config
already has user, group and permissions set. -/
def templatesOf (ns : String) (cfgFull : Bool) : List DirEntry → Outcome (List String)
  | [] => .ok []
  | e :: rest =>
    if e.fileName = some "eri.conf" then templatesOf ns cfgFull rest
    else
      match e.fileName with
      | none => .err "failed to get convert the file name into a string"
      | some fn =>
        if e.isDir then
          .panicked "template is not supposed to be created with a directory path"
        else if !cfgFull && !e.metaOk then
          .err "failed to resolve the export policy from the template file metadata"
        else
          match templatesOf ns cfgFull rest with
          | .ok ts => .ok ((ns ++ "/" ++ fn) :: ts)
          | .err m => .err m
          | .panicked m => .panicked m

/-- The qualified names discovery produces when every non-skipped entry is
a decodable non-directory. -/
def templateNamesOf (ns : String) (entries : List DirEntry) : List String :=
  (entries.filter (fun e => !(e.fileName == some "eri.conf"))).map
    (fun e => ns ++ "/" ++ e.fileName.getD "")

/-- An entry the discovery loop passes without failing: either skipped as
the override config file, or a decodable non-directory. -/
def entryPasses (e : DirEntry) : Prop :=
  e.fileName = some "eri.conf" ∨ (e.fileName ≠ none ∧ e.isDir = false)

/-- C10 counterexample: a sub-directory entry with a perfectly decodable
name makes discovery panic (fatal to the whole run) in `Template::new`,
although the claim allows discovery to fail only on an undecodable file
name. -/
theorem templates_panic_on_directory_entry :
    templatesOf "ns" true [⟨some "sub", true, true⟩] =
      .panicked "template is not supposed to be created with a directory path" := rfl

/-- C10 (amended): with a fully-populated export policy, discovery over a
namespace directory skips entries named `eri.conf` and turns every other
non-directory entry into a Template named `<namespace>/<entry-filename>`;
an entry whose file name cannot be decoded fails that namespace's discovery
with a returned error, while a directory entry (not named `eri.conf`)
aborts the whole run with a panic. -/
theorem templates_qualified_names :
    (∀ ns entries,
      (∀ e ∈ entries, e.fileName ≠ some "eri.conf" →
        e.fileName ≠ none ∧ e.isDir = false) →
      templatesOf ns true entries = .ok (templateNamesOf ns entries)) ∧
    (∀ ns (pre : List DirEntry) e post, (∀ x ∈ pre, entryPasses x) →
      e.fileName = none →
      templatesOf ns true (pre ++ e :: post) =
        .err "failed to get convert the file name into a string") ∧
    (∀ ns (pre : List DirEntry) e post fn, (∀ x ∈ pre, entryPasses x) →
      e.fileName = some fn → fn ≠ "eri.conf" → e.isDir = true →
      templatesOf ns true (pre ++ e :: post) =
        .panicked "template is not supposed to be created with a directory path") := by
  refine ⟨?_, ?_, ?_⟩
  · intro ns entries
    induction entries with
    | nil => intro _; rfl
    | cons e rest ih =>
      intro h
      have hrest := ih fun x hx hne => h x (List.mem_cons_of_mem e hx) hne
      by_cases hskip : e.fileName = some "eri.conf"
      · simp [templatesOf, hskip, templateNamesOf, hrest]
      · obtain ⟨hfn, hdir⟩ := h e (List.mem_cons_self e rest) hskip
        cases hf : e.fileName with
        | none => exact absurd hf hfn
        | some fn =>
          rw [hf] at hskip
          have hfn2 : fn ≠ "eri.conf" := by simpa using hskip
          simp [templatesOf, hf, hskip, hdir, hrest, templateNamesOf,
            List.filter_cons, hfn2]
  · intro ns pre e post hpre hnone
    induction pre with
    | nil =>
      have hskip : ¬ e.fileName = some "eri.conf" := by simp [hnone]
      simp [templatesOf, hnone, hskip]
    | cons x rest ih =>
      have hx := hpre x (List.mem_cons_self x rest)
      have hrest := ih fun y hy => hpre y (List.mem_cons_of_mem x hy)
      rcases hx with hskip | ⟨hfn, hdir⟩
      · simpa [templatesOf, hskip] using hrest
      · cases hf : x.fileName with
        | none => exact absurd hf hfn
        | some fn =>
          by_cases hsk : fn = "eri.conf"
          · subst hsk
            simp [templatesOf, hf, hrest]
          · have hskip : ¬ x.fileName = some "eri.conf" := by simp [hf, hsk]
            rw [List.cons_append]
            simp [templatesOf, hf, hsk, hdir, hrest]
  · intro ns pre e post fn hpre hsome hfn hdir
    induction pre with
    | nil =>
      have hskip : ¬ e.fileName = some "eri.conf" := by simp [hsome, hfn]
      simp [templatesOf, hsome, hfn, hskip, hdir]
    | cons x rest ih =>
      have hx := hpre x (List.mem_cons_self x rest)
      have hrest := ih fun y hy => hpre y (List.mem_cons_of_mem x hy)
      rcases hx with hskip | ⟨hxfn, hxdir⟩
      · simpa [templatesOf, hskip] using hrest
      · cases hf : x.fileName with
        | none => exact absurd hf hxfn
        | some gn =>
          by_cases hsk : gn = "eri.conf"
          · subst hsk
            simp [templatesOf, hf, hrest]
          · have hskip : ¬ x.fileName = some "eri.conf" := by simp [hf, hsk]
            rw [List.cons_append]
            simp [templatesOf, hf, hsk, hxdir, hrest]

/-- Witness for `templates_qualified_names`: a directory with the override
file, one template, then one undecodable entry and one sub-directory in
turn. -/
theorem templates_qualified_names_witness :
    templatesOf "app" true [⟨some "eri.conf", false, true⟩, ⟨some "a.tmpl", false, true⟩] =
      .ok ["app/a.tmpl"] ∧
    templatesOf "app" true [⟨some "a.tmpl", false, true⟩, ⟨none, false, true⟩] =
      .err "failed to get convert the file name into a string" ∧
    templatesOf "app" true [⟨some "eri.conf", false, true⟩, ⟨some "sub2", true, true⟩] =
      .panicked "template is not supposed to be created with a directory path" := by
  refine ⟨?_, ?_, ?_⟩
  · exact templates_qualified_names.1 "app"
      [⟨some "eri.conf", false, true⟩, ⟨some "a.tmpl", false, true⟩]
      (by
        intro e he hne
        simp at he
        rcases he with h | h <;> simp [h] at hne ⊢)
  · exact templates_qualified_names.2.1 "app" [⟨some "a.tmpl", false, true⟩]
      ⟨none, false, true⟩ []
      (by
        intro x hx
        simp at hx
        simp [hx, entryPasses])
      rfl
  · exact templates_qualified_names.2.2 "app" [⟨some "eri.conf", false, true⟩]
      ⟨some "sub2", true, true⟩ [] "sub2"
      (by
        intro x hx
        simp at hx
        simp [hx, entryPasses])
      rfl (by simp) rfl

/-- `str::split(sep)` over the characters of a string, accumulator form. -/
def splitCharAux (sep : Char) : List Char → List Char → List (List Char)
  | [], acc => [acc.reverse]
  | c :: cs, acc =>
    if c = sep then acc.reverse :: splitCharAux sep cs []
    else splitCharAux sep cs (c :: acc)

/-- Rust `str::split(sep).collect::<Vec<_>>()`: always non-empty, empty
pieces preserved. -/
def splitChar (sep : Char) (s : String) : List String :=
  (splitCharAux sep s.toList []).map List.asString

/-- Rust `Vec::<&str>::join(".")`. -/
def joinDots : List String → String
  | [] => ""
  | [p] => p
  | p :: q :: rest => p ++ "." ++ joinDots (q :: rest)

/-- Rust `str::starts_with` on a string prefix. -/
def strStartsWith (s pre : String) : Bool := pre.toList.isPrefixOf s.toList

/-- `Template::namespace` (src/template.rs): the part of the qualified name
before the first `/` (`name.split('/')` index 0). -/
def templateNamespace (name : String) : String := (splitChar '/' name).headD ""

/-- The per-parameter transformation in `Namespace::gen_data_file`
(src/namespace.rs): split on `.`, remove the first part, join with `.`. -/
def stripFirstSegment (p : String) : String := joinDots ((splitChar '.' p).drop 1)

/-- One element of a parsed handlebars template, as
`Template::parameter_list` distinguishes them: a raw-text element, an
`Expression` whose name is a relative variable path (carrying the joined
dotted path, `Path::Relative`'s second component), any other `Expression`,
or any other element kind. -/
inductive HbElement where
  | rawText (s : String)
  | exprRelativePath (path : String)
  | exprOther
  | otherElement

/-- A registered template: its qualified name `<namespace>/<file name>`
and its parsed top-level elements. -/
structure TemplateModel where
  name : String
  elements : List HbElement

/-- `Template::parameter_list` (src/template.rs): the relative variable
paths among the top-level expression elements whose dotted path starts with
`<own namespace>.`, in template order, duplicates preserved. -/
def parameter_list (t : TemplateModel) : List String :=
  t.elements.filterMap fun el =>
    match el with
    | .exprRelativePath p =>
      if strStartsWith p (templateNamespace t.name ++ ".") then some p else none
    | _ => none

/-- `BTreeSet<String>::insert` on a sorted duplicate-free list. -/
def setInsert (x : String) : List String → List String
  | [] => [x]
  | y :: ys =>
    if x < y then x :: y :: ys
    else if x = y then y :: ys
    else y :: setInsert x ys

/-- The inner loop of `Namespace::gen_data_file`: strip each harvested
parameter and insert it into the accumulated `BTreeSet`. -/
def insertAllStripped (acc : List String) (ps : List String) : List String :=
  ps.foldl (fun a p => setInsert (stripFirstSegment p) a) acc

/-- The parameter-set computation of `Namespace::gen_data_file`
(src/namespace.rs): over all templates of the namespace, harvest
`parameter_list`, strip the first dot-segment of each path, and collect
into a `BTreeSet` (deduplicated, sorted). -/
def gendataParams (ts : List TemplateModel) : List String :=
  ts.foldl (fun acc t => insertAllStripped acc (parameter_list t)) []

theorem mem_setInsert (x : String) :
    ∀ (l : List String) (z : String), z ∈ setInsert x l ↔ z = x ∨ z ∈ l := by
  intro l
  induction l with
  | nil => intro z; simp [setInsert]
  | cons y ys ih =>
    intro z
    by_cases h1 : x < y
    · simp [setInsert, h1]
    · by_cases h2 : x = y
      · subst h2
        rw [setInsert, if_neg h1, if_pos rfl]
        simp only [List.mem_cons]
        tauto
      · simp only [setInsert, if_neg h1, if_neg h2]
        simp only [List.mem_cons, ih z]
        tauto

theorem sorted_setInsert (x : String) :
    ∀ l : List String, l.Pairwise (· < ·) → (setInsert x l).Pairwise (· < ·) := by
  intro l
  induction l with
  | nil => intro _; simp [setInsert]
  | cons y ys ih =>
    intro h
    rw [List.pairwise_cons] at h
    obtain ⟨hy, hys⟩ := h
    by_cases h1 : x < y
    · rw [setInsert]
      rw [if_pos h1]
      refine List.pairwise_cons.mpr ⟨?_, List.pairwise_cons.mpr ⟨hy, hys⟩⟩
      intro z hz
      rcases List.mem_cons.mp hz with h | h
      · exact h ▸ h1
      · exact lt_trans h1 (hy z h)
    · by_cases h2 : x = y
      · rw [setInsert, if_neg h1, if_pos h2]
        exact List.pairwise_cons.mpr ⟨hy, hys⟩
      · have hyx : y < x := by
          rcases lt_trichotomy x y with h | h | h
          · exact absurd h h1
          · exact absurd h h2
          · exact h
        rw [setInsert, if_neg h1, if_neg h2]
        refine List.pairwise_cons.mpr ⟨?_, ih hys⟩
        intro z hz
        rcases (mem_setInsert x ys z).mp hz with h | h
        · exact h ▸ hyx
        · exact hy z h

theorem mem_insertAllStripped :
    ∀ (ps acc : List String) (z : String),
      z ∈ insertAllStripped acc ps ↔
        z ∈ acc ∨ ∃ p ∈ ps, stripFirstSegment p = z := by
  intro ps
  induction ps with
  | nil => intro acc z; simp [insertAllStripped]
  | cons p rest ih =>
    intro acc z
    have hstep : insertAllStripped acc (p :: rest) =
        insertAllStripped (setInsert (stripFirstSegment p) acc) rest := rfl
    rw [hstep, ih, mem_setInsert]
    simp only [List.mem_cons]
    constructor
    · rintro ((h | h) | ⟨q, hq, hqz⟩)
      · exact Or.inr ⟨p, Or.inl rfl, h.symm⟩
      · exact Or.inl h
      · exact Or.inr ⟨q, Or.inr hq, hqz⟩
    · rintro (h | ⟨q, (hq | hq), hqz⟩)
      · exact Or.inl (Or.inr h)
      · exact Or.inl (Or.inl (hq ▸ hqz.symm))
      · exact Or.inr ⟨q, hq, hqz⟩

theorem sorted_insertAllStripped :
    ∀ (ps acc : List String), acc.Pairwise (· < ·) →
      (insertAllStripped acc ps).Pairwise (· < ·) := by
  intro ps
  induction ps with
  | nil => intro acc h; simpa [insertAllStripped] using h
  | cons p rest ih =>
    intro acc h
    exact ih (setInsert (stripFirstSegment p) acc)
      (sorted_setInsert (stripFirstSegment p) acc h)

theorem mem_gendataAux :
    ∀ (ts : List TemplateModel) (acc : List String) (z : String),
      z ∈ ts.foldl (fun acc t => insertAllStripped acc (parameter_list t)) acc ↔
        z ∈ acc ∨ ∃ t ∈ ts, ∃ p ∈ parameter_list t, stripFirstSegment p = z := by
  intro ts
  induction ts with
  | nil => intro acc z; simp
  | cons t rest ih =>
    intro acc z
    rw [List.foldl_cons, ih, mem_insertAllStripped]
    simp only [List.mem_cons]
    constructor
    · rintro ((h | ⟨p, hp, hpz⟩) | ⟨u, hu, hrest⟩)
      · exact Or.inl h
      · exact Or.inr ⟨t, Or.inl rfl, p, hp, hpz⟩
      · exact Or.inr ⟨u, Or.inr hu, hrest⟩
    · rintro (h | ⟨u, (hu | hu), p, hp, hpz⟩)
      · exact Or.inl (Or.inl h)
      · exact Or.inl (Or.inr ⟨p, hu ▸ hp, hpz⟩)
      · exact Or.inr ⟨u, hu, p, hp, hpz⟩

theorem sorted_gendataAux :
    ∀ (ts : List TemplateModel) (acc : List String), acc.Pairwise (· < ·) →
      (ts.foldl (fun acc t => insertAllStripped acc (parameter_list t)) acc).Pairwise
        (· < ·) := by
  intro ts
  induction ts with
  | nil => intro acc h; simpa using h
  | cons t rest ih =>
    intro acc h
    exact ih (insertAllStripped acc (parameter_list t))
      (sorted_insertAllStripped (parameter_list t) acc h)

/-- C7 counterexample: for a namespace whose name contains a dot, the
output path is the harvested path with only its **first** dot-segment
removed, not with the namespace prefix stripped.  Template `a.b/t`
referencing `a.b.foo` (namespace `a.b` plus `.foo`) yields `b.foo`, not
`foo`. -/
theorem gendata_strips_only_first_segment :
    gendataParams [⟨"a.b/t", [.exprRelativePath "a.b.foo"]⟩] = ["b.foo"] ∧
    "a.b" ++ "." ++ "foo" = "a.b.foo" ∧
    ("b.foo" : String) ≠ "foo" := by
  refine ⟨rfl, rfl, by decide⟩

/-- C7 (amended): `parameter_list` harvests exactly the relative
variable-reference paths that start with `<own namespace>.` (references
rooted in any other namespace are excluded); the per-namespace gendata set
is deduplicated and sorted in strictly increasing lexicographic order, and
contains exactly the harvested paths with their first dot-separated segment
removed (which equals stripping the namespace prefix whenever the namespace
name itself contains no dot). -/
theorem gendata_harvested_parameter_set :
    (∀ t p, p ∈ parameter_list t ↔
      (HbElement.exprRelativePath p ∈ t.elements ∧
        strStartsWith p (templateNamespace t.name ++ ".") = true)) ∧
    (∀ ts, (gendataParams ts).Pairwise (· < ·)) ∧
    (∀ ts, (gendataParams ts).Nodup) ∧
    (∀ ts z, z ∈ gendataParams ts ↔
      ∃ t ∈ ts, ∃ p ∈ parameter_list t, stripFirstSegment p = z) := by
  have hsorted : ∀ ts, (gendataParams ts).Pairwise (· < ·) := fun ts =>
    sorted_gendataAux ts [] (List.Pairwise.nil)
  refine ⟨?_, hsorted, ?_, ?_⟩
  · intro t p
    simp only [parameter_list, List.mem_filterMap]
    constructor
    · rintro ⟨el, hel, hsome⟩
      cases el with
      | exprRelativePath q =>
        dsimp only at hsome
        by_cases hc : strStartsWith q (templateNamespace t.name ++ ".") = true
        · rw [if_pos hc] at hsome
          cases hsome
          exact ⟨hel, hc⟩
        · rw [if_neg hc] at hsome
          cases hsome
      | rawText s => cases hsome
      | exprOther => cases hsome
      | otherElement => cases hsome
    · rintro ⟨hel, hc⟩
      refine ⟨.exprRelativePath p, hel, ?_⟩
      dsimp only
      rw [if_pos hc]
  · intro ts
    exact (hsorted ts).imp fun h => ne_of_lt h
  · intro ts z
    have h := mem_gendataAux ts [] z
    simpa using h

end Eri
